import Mathlib

/-!
Verification of the coordinator (`main` in `src/classifier.c`) of the parallel
kNN image classifier.  The C code is shallowly embedded: C `int` values are
modelled as `Int` (all quantities reached by the claims stay far inside the
32-bit range, so wrap-around never occurs on the considered inputs), the
getopt loop, the metric selection, the pre-fork phase, the test-set
partitioning loop and the result-collection loop each become an executable
Lean function mirroring the corresponding source lines.
-/

namespace Classifier

/-! ## Command line parsing (classifier.c lines 51-87) -/

/-- C `isspace` for the default locale, as consulted by `atoi`. -/
def isSpaceC (c : Char) : Bool :=
  c = ' ' || c = '\t' || c = '\n' || c = '\x0b' || c = '\x0c' || c = '\r'

/-- The digit-consuming loop of C `atoi`: consume decimal digits from the
front of the list, accumulating the value; stop at the first non-digit.
(Overflow of the C `int` is ignored: the claims only evaluate it on short
strings.) -/
def digitsVal : List Char → Int → Int
  | [], acc => acc
  | c :: rest, acc =>
    if c.isDigit then digitsVal rest (acc * 10 + ((c.toNat - 48 : Nat) : Int)) else acc

/-- C `atoi` (used at classifier.c lines 66 and 72): skip leading whitespace,
an optional sign, then read digits; a string with no leading digits yields 0. -/
def cAtoi (s : List Char) : Int :=
  match s.dropWhile isSpaceC with
  | [] => 0
  | c :: rest =>
    if c = '-' then - digitsVal rest 0
    else if c = '+' then digitsVal rest 0
    else digitsVal (c :: rest) 0

/-- Whether the string, after `atoi`-style whitespace skipping, starts with a
digit or a sign, i.e. whether C `atoi` sees any numeric prefix at all. -/
def startsNumeric (s : List Char) : Bool :=
  match s.dropWhile isSpaceC with
  | [] => false
  | c :: _ => c.isDigit || c = '+' || c = '-'

/-- The four mutable option variables of `main` (classifier.c lines 54-57),
with their initial (default) values taken at declaration. -/
structure ParsedOpts where
  K : Int
  dist_metric : List Char
  num_procs : Int
  verbose : Bool

/-- Defaults of classifier.c lines 54-57: K=1, metric "euclidean",
num_procs=1, verbose off. -/
def defaultOpts : ParsedOpts :=
  ⟨1, "euclidean".toList, 1, false⟩

/-- One option as delivered by `getopt(argc, argv, "vK:d:p:")`: the option
letter together with its `optarg` (options `K`, `d`, `p` take an argument,
`v` does not); `badOpt` is getopt's `?` for an unrecognized option. -/
inductive OptTok : Type
  | optV : OptTok
  | optK : List Char → OptTok
  | optD : List Char → OptTok
  | optP : List Char → OptTok
  | badOpt : OptTok

/-- One iteration of the `switch` in the getopt loop (classifier.c lines
61-77): `none` models `usage(argv[0]); exit(1)` on an unknown option.
Note that the `K` and `p` arguments pass through `atoi` with no validation. -/
def applyOpt (cfg : ParsedOpts) : OptTok → Option ParsedOpts
  | OptTok.optV => some ⟨cfg.K, cfg.dist_metric, cfg.num_procs, true⟩
  | OptTok.optK a => some ⟨cAtoi a, cfg.dist_metric, cfg.num_procs, cfg.verbose⟩
  | OptTok.optD a => some ⟨cfg.K, a, cfg.num_procs, cfg.verbose⟩
  | OptTok.optP a => some ⟨cfg.K, cfg.dist_metric, cAtoi a, cfg.verbose⟩
  | OptTok.badOpt => none

/-- The getopt `while` loop (classifier.c lines 60-78) over the delivered
option tokens. -/
def parseOptsLoop : List OptTok → ParsedOpts → Option ParsedOpts
  | [], cfg => some cfg
  | t :: rest, cfg =>
    match applyOpt cfg t with
    | none => none
    | some cfg2 => parseOptsLoop rest cfg2

/-- Whole option-parsing phase starting from the defaults. -/
def parseOpts (toks : List OptTok) : Option ParsedOpts :=
  parseOptsLoop toks defaultOpts

/-! ## Distance-metric selection (classifier.c lines 99-111) -/

/-- The two distance functions `distance_euclidean` / `distance_cosine` the
coordinator can select. -/
inductive DistMetric : Type
  | euclidean : DistMetric
  | cosine : DistMetric
  deriving DecidableEq

/-- The characters of the literal "euclidean" compared against at line 102. -/
def euclideanChars : List Char := "euclidean".toList

/-- The characters of the literal "cosine" compared against at line 105. -/
def cosineChars : List Char := "cosine".toList

/-- The metric dispatch of classifier.c lines 102-111.  The C test
`strncmp(dist_metric, "euclidean", strlen(dist_metric)) == 0` holds exactly
when `dist_metric` is a (possibly empty) prefix of `"euclidean"`: comparison
stops after `strlen(dist_metric)` characters, and when `dist_metric` is
longer than the literal the terminating NUL of the literal mismatches.
`none` models `perror(...); exit(1)`. -/
def selectMetric (dm : List Char) : Option DistMetric :=
  if dm.isPrefixOf euclideanChars then some DistMetric.euclidean
  else if dm.isPrefixOf cosineChars then some DistMetric.cosine
  else none

/-! ## The pre-fork phase of main (classifier.c lines 80-128) -/

/-- The distinct `exit(1)` sites of `main` before any child is forked. -/
inductive MainError : Type
  | usageError : MainError
  | badMetric : MainError
  | trainLoadFail : MainError
  | testLoadFail : MainError
  deriving DecidableEq

/-- The phase of `main` between option parsing and forking, in source order:
the positional-argument check `if (optind >= argc)` (lines 80-83, which only
requires at least ONE positional argument to remain), then metric selection
(lines 102-111), then `load_dataset` on `argv[optind]` and `argv[optind+1]`
(lines 118-128).  `positionals` is the list of non-option arguments, so
`positionals[1]?` is `none` exactly when `argv[optind+1]` is the `NULL` at
`argv[argc]`.  `load_dataset` lives in `knn.c` (not in src/), so it is an
oracle parameter: it receives the possibly-NULL path and reports the loaded
test-set and training-set sizes, `none` meaning a failed load (lines
119-122 and 125-128).  On success the selected metric and the two
`num_items` values are returned. -/
def mainBeforeFork (opts : ParsedOpts) (positionals : List (List Char))
    (load_dataset : Option (List Char) → Option Int) :
    Except MainError (DistMetric × Int × Int) :=
  if positionals.length = 0 then Except.error MainError.usageError
  else
    match selectMetric opts.dist_metric with
    | none => Except.error MainError.badMetric
    | some m =>
      match load_dataset positionals[0]? with
      | none => Except.error MainError.trainLoadFail
      | some n_train =>
        match load_dataset positionals[1]? with
        | none => Except.error MainError.testLoadFail
        | some n_test => Except.ok (m, n_train, n_test)

/-! ## Test-set partitioning (classifier.c lines 172-196) -/

/-- `ceil((testing->num_items / 1.0) / num_procs)` of line 172.  For the
int-range values reachable here the double-precision computation is exact,
so it is modelled as the exact ceiling, i.e. `(n + p - 1) / p` for
`0 ≤ n`, `1 ≤ p` (all division conventions agree on these arguments). -/
def cCeil (n p : Int) : Int := (n + p - 1) / p

/-- The conditional shrink of `N` at lines 176-178:
`if (testing->num_items - cur_start < N) N = testing->num_items - cur_start`. -/
def adjustSlice (num_items cur_start N : Int) : Int :=
  if num_items - cur_start < N then num_items - cur_start else N

/-- The distribution `for` loop of lines 175-196: at each iteration shrink
`N` if fewer than `N` items remain, emit the pair `(cur_start, N)` written
to the child, then advance `cur_start` by `N`.  The first argument is the
number of remaining iterations (`num_procs - i`). -/
def partitionLoop : Nat → Int → Int → Int → List (Int × Int)
  | 0, _, _, _ => []
  | i + 1, num_items, cur_start, N =>
    (cur_start, adjustSlice num_items cur_start N) ::
      partitionLoop i num_items (cur_start + adjustSlice num_items cur_start N)
        (adjustSlice num_items cur_start N)

/-- The full list of `(start_idx, N)` work assignments written by the
coordinator, in child order (lines 172-196). -/
def slices (num_items num_procs : Int) : List (Int × Int) :=
  partitionLoop num_procs.toNat num_items 0 (cCeil num_items num_procs)

/-- The testing-set indices covered by one slice `(start, count)`:
`start, start+1, ..., start+count-1`. -/
def sliceIndices (s : Int × Int) : List Int :=
  (List.range s.2.toNat).map (fun j : Nat => s.1 + (j : Int))

/-- All indices covered by a list of slices, in order. -/
def coveredIndices (l : List (Int × Int)) : List Int :=
  (l.map sliceIndices).flatten

/-! ## Result collection (classifier.c lines 205-233) -/

/-- One `read(fds[i][0], &num_correct, sizeof(int))` at line 216.  The
channel carries `some v` when child `i` wrote its result `v` before exiting
and `none` when the child terminated without writing (all write ends are
closed once every child has exited, since the parent closed its own copies
at line 190 and has already reaped every child at lines 206-211, so the
read then returns 0 — end of file — and leaves the buffer untouched).
Returns (return value of `read`, new contents of `num_correct`). -/
def readChild (chan : Option Int) (buf : Int) : Int × Int :=
  match chan with
  | some v => (4, v)
  | none => (0, buf)

/-- The collection `for` loop of lines 214-226 over the per-child channels:
`buf` is the current contents of the local variable `num_correct`
(uninitialized before the first read — the caller supplies its garbage
value), `total` is `total_correct`.  The loop exits with an error (`none`)
only when `read` returns a negative value; otherwise it adds `num_correct`
to the running total. -/
def collectLoop : List (Option Int) → Int → Int → Option Int
  | [], _, total => some total
  | chan :: rest, buf, total =>
    if (readChild chan buf).1 < 0 then none
    else collectLoop rest (readChild chan buf).2 (total + (readChild chan buf).2)

/-! ## stdout of a successful run (classifier.c lines 130-133, 201-203, 228-233) -/

/-- Everything `main` prints to standard output on a run that reaches the
final print, in order: the three `printf` calls guarded by `verbose`
(lines 132, 202, 229) and the final `printf("%d\n", total_correct)` at
line 233.  (The `verbose` message of line 115 uses `fprintf(stderr, ...)`
and so is not on this stream.) -/
def mainStdout (verbose : Bool) (total_correct : Int) : List String :=
  (if verbose then ["- Creating children ...\n"] else []) ++
    (if verbose then ["- Waiting for children...\n"] else []) ++
      (if verbose then ["Number of correct predictions: " ++ toString total_correct ++ "\n"] else []) ++
        [toString total_correct ++ "\n"]

/-! ## The classification engine boundary -/

/-- Modelled from the spec: the kNN engine (`classify` in `knn.c`, a file of
this repository that is not under src/) must reject a `K` larger than
`training.num_items` rather than silently clamp it (spec section 4.2 item 4).
`true` means the engine rejects the pair as invalid input. -/
def engineRejectsK (K num_items_training : Int) : Bool :=
  decide (num_items_training < K)

/-! ## Helper lemmas about the partitioning loop -/

/-- The adjusted slice size is nonnegative, never grows, and never overruns
the end of the testing set. -/
theorem adjustSlice_spec (n c N : Int) (hc : c ≤ n) (hN : 0 ≤ N) :
    0 ≤ adjustSlice n c N ∧ adjustSlice n c N ≤ N ∧ c + adjustSlice n c N ≤ n := by
  by_cases h : n - c < N
  · simp only [adjustSlice, if_pos h]; omega
  · simp only [adjustSlice, if_neg h]; omega

/-- The loop emits exactly one assignment per iteration. -/
theorem partitionLoop_length : ∀ (i : Nat) (n c N : Int),
    (partitionLoop i n c N).length = i
  | 0, _, _, _ => rfl
  | i + 1, n, c, N => by
    simp [partitionLoop, partitionLoop_length i]

/-- Once `cur_start` has reached `num_items`, every remaining iteration
emits the assignment `(num_items, 0)`. -/
theorem partitionLoop_at_end : ∀ (i : Nat) (n N : Int), 0 ≤ N →
    partitionLoop i n n N = List.replicate i (n, 0)
  | 0, _, _, _ => rfl
  | i + 1, n, N, hN => by
    have h1 : adjustSlice n n N = 0 := by
      by_cases h : n - n < N
      · simp only [adjustSlice, if_pos h]; omega
      · simp only [adjustSlice, if_neg h]; omega
    simp [partitionLoop, h1, partitionLoop_at_end i n 0 le_rfl, List.replicate_succ]

/-- Bounds satisfied by every emitted assignment: nonnegative size, size at
most the current `N`, start at least the current `cur_start`, and the slice
stays inside the testing set. -/
theorem partitionLoop_mem_bounds : ∀ (i : Nat) (n c N : Int), 0 ≤ c → c ≤ n → 0 ≤ N →
    ∀ s ∈ partitionLoop i n c N, 0 ≤ s.2 ∧ s.2 ≤ N ∧ c ≤ s.1 ∧ s.1 + s.2 ≤ n
  | 0, n, c, N, _, _, _, s, hs => by simp [partitionLoop] at hs
  | i + 1, n, c, N, hc, hcn, hN, s, hs => by
    obtain ⟨h1, h2, h3⟩ := adjustSlice_spec n c N hcn hN
    simp only [partitionLoop, List.mem_cons] at hs
    rcases hs with hs | hs
    · subst hs
      exact ⟨h1, h2, le_refl c, h3⟩
    · have hb := partitionLoop_mem_bounds i n (c + adjustSlice n c N) (adjustSlice n c N)
        (by omega) h3 h1 s hs
      exact ⟨hb.1, le_trans hb.2.1 h2, by omega, hb.2.2.2⟩

/-- The base slice size of line 172 is nonnegative. -/
theorem cCeil_nonneg (n p : Int) (hn : 0 ≤ n) (hp : 1 ≤ p) : 0 ≤ cCeil n p := by
  unfold cCeil
  exact Int.ediv_nonneg (by omega) (by omega)

/-- `num_procs` slices of the base size are enough to cover the testing set. -/
theorem le_mul_cCeil (n p : Int) (_hn : 0 ≤ n) (hp : 1 ≤ p) : n ≤ p * cCeil n p := by
  unfold cCeil
  have h1 := Int.ediv_add_emod (n + p - 1) p
  have h2 : (n + p - 1) % p < p := Int.emod_lt_of_pos (n + p - 1) (by omega)
  have h3 : 0 ≤ (n + p - 1) % p := Int.emod_nonneg (n + p - 1) (by omega)
  have h4 : (n + p - 1) % p ≤ p - 1 := by omega
  linarith

/-- The base slice size is positive on a non-empty testing set. -/
theorem cCeil_pos (n p : Int) (hn : 0 < n) (hp : 1 ≤ p) : 1 ≤ cCeil n p := by
  have h1 := le_mul_cCeil n p (by omega) hp
  by_contra hq
  push_neg at hq
  have h2 : cCeil n p ≤ 0 := by omega
  have h3 : p * cCeil n p ≤ p * 0 := mul_le_mul_of_nonneg_left h2 (by omega)
  simp only [mul_zero] at h3
  omega

/-- Precondition feeding the coverage lemmas: at entry to the loop the whole
testing set still fits into the remaining iterations. -/
theorem slices_precond (n p : Int) (hn : 0 ≤ n) (hp : 1 ≤ p) :
    n - 0 ≤ ((p.toNat : ℕ) : Int) * cCeil n p := by
  have h1 : ((p.toNat : ℕ) : Int) = p := Int.toNat_of_nonneg (by omega)
  rw [h1, sub_zero]
  exact le_mul_cCeil n p hn hp

/-- The emitted slice sizes sum to exactly the remaining item count. -/
theorem partitionLoop_sum : ∀ (i : Nat) (n c N : Int), 0 ≤ c → c ≤ n → 0 ≤ N →
    n - c ≤ (i : Int) * N → ((partitionLoop i n c N).map Prod.snd).sum = n - c
  | 0, n, c, N, _, hcn, _, hcov => by
    simp only [Nat.cast_zero, zero_mul] at hcov
    simp only [partitionLoop, List.map_nil, List.sum_nil]
    omega
  | i + 1, n, c, N, hc, hcn, hN, hcov => by
    by_cases hadj : n - c < N
    · have h1 : adjustSlice n c N = n - c := by simp only [adjustSlice, if_pos hadj]
      have h2 : c + (n - c) = n := by ring
      simp only [partitionLoop, h1, h2, List.map_cons, List.sum_cons]
      rw [partitionLoop_at_end i n (n - c) (by omega)]
      simp [List.map_replicate, List.sum_replicate]
    · have h1 : adjustSlice n c N = N := by simp only [adjustSlice, if_neg hadj]
      have hcov2 : n - (c + N) ≤ (i : Int) * N := by
        have hh : ((i : Int) + 1) * N = (i : Int) * N + N := by ring
        push_cast at hcov
        linarith
      simp only [partitionLoop, h1, List.map_cons, List.sum_cons]
      rw [partitionLoop_sum i n (c + N) N (by omega) (by omega) hN hcov2]
      ring

/-- Covered indices of a cons of slices. -/
theorem coveredIndices_cons (s : Int × Int) (l : List (Int × Int)) :
    coveredIndices (s :: l) = sliceIndices s ++ coveredIndices l := by
  simp [coveredIndices]

/-- Flattening copies of the empty list gives the empty list. -/
theorem flatten_replicate_nil : ∀ (i : Nat),
    (List.replicate i ([] : List Int)).flatten = []
  | 0 => rfl
  | i + 1 => by simp [List.replicate_succ, flatten_replicate_nil i]

/-- The trailing all-empty assignments cover no index at all. -/
theorem coveredIndices_replicate_end (i : Nat) (n : Int) :
    coveredIndices (List.replicate i ((n : Int), (0 : Int))) = [] := by
  have h1 : sliceIndices ((n : Int), (0 : Int)) = [] := by
    simp [sliceIndices]
  simp [coveredIndices, List.map_replicate, h1, flatten_replicate_nil]

/-- Full coverage: the indices covered by the emitted assignments are exactly
`cur_start, ..., num_items - 1`, each exactly once and in order. -/
theorem partitionLoop_covered : ∀ (i : Nat) (n c N : Int), 0 ≤ c → c ≤ n → 0 ≤ N →
    n - c ≤ (i : Int) * N →
    coveredIndices (partitionLoop i n c N) =
      (List.range (n - c).toNat).map (fun j : Nat => c + (j : Int))
  | 0, n, c, N, _, hcn, _, hcov => by
    simp only [Nat.cast_zero, zero_mul] at hcov
    have h0 : n - c = 0 := by omega
    simp [partitionLoop, coveredIndices, h0]
  | i + 1, n, c, N, hc, hcn, hN, hcov => by
    by_cases hadj : n - c < N
    · have h1 : adjustSlice n c N = n - c := by simp only [adjustSlice, if_pos hadj]
      have h2 : c + (n - c) = n := by ring
      simp only [partitionLoop, h1, h2, coveredIndices_cons]
      rw [partitionLoop_at_end i n (n - c) (by omega), coveredIndices_replicate_end]
      simp [sliceIndices]
    · have h1 : adjustSlice n c N = N := by simp only [adjustSlice, if_neg hadj]
      have hcov2 : n - (c + N) ≤ (i : Int) * N := by
        have hh : ((i : Int) + 1) * N = (i : Int) * N + N := by ring
        push_cast at hcov
        linarith
      simp only [partitionLoop, h1, coveredIndices_cons]
      rw [partitionLoop_covered i n (c + N) N (by omega) (by omega) hN hcov2]
      have ha : ((N.toNat : ℕ) : Int) = N := Int.toNat_of_nonneg hN
      have hab : (n - c).toNat = N.toNat + (n - c - N).toNat := by omega
      have hfirst : sliceIndices ((c : Int), N) =
          (List.range N.toNat).map (fun j : Nat => c + (j : Int)) := by
        simp [sliceIndices]
      have hsecond :
          ((List.range (n - c - N).toNat).map (fun x : Nat => N.toNat + x)).map
              (fun j : Nat => c + (j : Int)) =
            (List.range (n - c - N).toNat).map (fun j : Nat => c + N + (j : Int)) := by
        rw [List.map_map]
        apply List.map_congr_left
        intro j _
        simp only [Function.comp_apply]
        push_cast [ha]
        ring
      rw [hab, List.range_add, List.map_append, hsecond, hfirst, sub_sub]

/-- Shape of the emitted sizes: some copies of the current `N`, then at most
one strictly smaller positive remainder, then zeros. -/
theorem partitionLoop_shape : ∀ (i : Nat) (n c N : Int), 0 ≤ c → c ≤ n → 0 ≤ N →
    ∃ a b mid, ((partitionLoop i n c N).map Prod.snd) =
        List.replicate a N ++ mid ++ List.replicate b 0 ∧
      (mid = [] ∨ ∃ r, mid = [r] ∧ 0 < r ∧ r < N)
  | 0, _, _, N, _, _, _ => ⟨0, 0, [], by simp [partitionLoop], Or.inl rfl⟩
  | i + 1, n, c, N, hc, hcn, hN => by
    by_cases hadj : n - c < N
    · have h1 : adjustSlice n c N = n - c := by simp only [adjustSlice, if_pos hadj]
      have h2 : c + (n - c) = n := by ring
      by_cases hz : n - c = 0
      · refine ⟨0, i + 1, [], ?_, Or.inl rfl⟩
        simp only [partitionLoop, h1, h2, List.map_cons]
        rw [partitionLoop_at_end i n (n - c) (by omega)]
        simp [List.map_replicate, hz, List.replicate_succ]
      · refine ⟨0, i, [n - c], ?_, Or.inr ⟨n - c, rfl, by omega, hadj⟩⟩
        simp only [partitionLoop, h1, h2, List.map_cons]
        rw [partitionLoop_at_end i n (n - c) (by omega)]
        simp [List.map_replicate]
    · have h1 : adjustSlice n c N = N := by simp only [adjustSlice, if_neg hadj]
      obtain ⟨a, b, mid, heq, hmid⟩ :=
        partitionLoop_shape i n (c + N) N (by omega) (by omega) hN
      refine ⟨a + 1, b, mid, ?_, hmid⟩
      simp only [partitionLoop, h1, List.map_cons, heq, List.replicate_succ,
        List.cons_append]

/-- Ordering invariant of the loop: sizes never increase from one assignment
to the next, and after a zero-size assignment every later assignment is
`(num_items, 0)`.  Needs the invariant that `N` is positive unless
`cur_start` has already reached the end. -/
theorem partitionLoop_pairwise : ∀ (i : Nat) (n c N : Int), 0 ≤ c → c ≤ n → 0 ≤ N →
    (0 < N ∨ c = n) →
    List.Pairwise (fun a b : Int × Int => b.2 ≤ a.2 ∧ (a.2 = 0 → b.1 = n ∧ b.2 = 0))
      (partitionLoop i n c N)
  | 0, _, _, _, _, _, _, _ => by simp [partitionLoop]
  | i + 1, n, c, N, hc, hcn, hN, hinv => by
    obtain ⟨hA0, hAN, hAn⟩ := adjustSlice_spec n c N hcn hN
    have hinv2 : 0 < adjustSlice n c N ∨ c + adjustSlice n c N = n := by
      by_cases hadj : n - c < N
      · have h1 : adjustSlice n c N = n - c := by simp only [adjustSlice, if_pos hadj]
        rw [h1]; omega
      · have h1 : adjustSlice n c N = N := by simp only [adjustSlice, if_neg hadj]
        rw [h1]
        rcases hinv with h | h
        · exact Or.inl h
        · right; omega
    simp only [partitionLoop]
    refine List.Pairwise.cons ?_
      (partitionLoop_pairwise i n (c + adjustSlice n c N) (adjustSlice n c N)
        (by omega) hAn hA0 hinv2)
    intro b hb
    have hbb := partitionLoop_mem_bounds i n (c + adjustSlice n c N) (adjustSlice n c N)
      (by omega) hAn hA0 b hb
    refine ⟨hbb.2.1, ?_⟩
    intro hA0eq
    simp only at hA0eq
    have hcend : c + adjustSlice n c N = n := by
      rcases hinv2 with h | h
      · omega
      · exact h
    rw [hA0eq, add_zero] at hb
    have hceq : c = n := by omega
    rw [hceq, partitionLoop_at_end i n 0 le_rfl] at hb
    have hbeq := List.eq_of_mem_replicate hb
    rw [hbeq]
    exact ⟨rfl, rfl⟩

/-! ## Helper lemmas about the collection loop -/

/-- When every child wrote its result, the collection loop succeeds and adds
exactly the written results to the running total. -/
theorem collectLoop_map_some : ∀ (l : List Int) (g t : Int),
    collectLoop (l.map some) g t = some (t + l.sum)
  | [], g, t => by simp [collectLoop]
  | x :: xs, g, t => by
    simp only [List.map_cons, collectLoop, readChild]
    rw [if_neg (by omega)]
    rw [collectLoop_map_some xs x (t + x)]
    congr 1
    simp only [List.sum_cons]
    ring

/-- The collection loop never reports an error, whatever the channels carry:
`read` returning 0 at end of file does not trigger the `< 0` check at
line 216. -/
theorem collectLoop_isSome : ∀ (chans : List (Option Int)) (g t : Int),
    (collectLoop chans g t).isSome = true
  | [], _, _ => rfl
  | chan :: rest, g, t => by
    have h : ¬ (readChild chan g).1 < 0 := by
      cases chan <;> simp only [readChild] <;> omega
    simp only [collectLoop, if_neg h]
    exact collectLoop_isSome rest _ _

/-- Helper: a one-element list has at most one element surviving a filter. -/
theorem length_filter_single_le (q : Int → Bool) (r : Int) :
    (([r]).filter q).length ≤ 1 := by
  cases hq : q r <;> simp [List.filter_cons, hq]

/-- Helper: filtering copies of an element the predicate refuses gives
the empty list. -/
theorem filter_replicate_false (q : Int → Bool) (x : Int) (hx : q x = false) :
    ∀ (k : Nat), (List.replicate k x).filter q = []
  | 0 => rfl
  | k + 1 => by
    simp [List.replicate_succ, List.filter_cons, hx, filter_replicate_false q x hx k]

/-! ## The claims -/

/-- Claim C1: for every testing-set size `num_items ≥ 0` and worker count
`num_procs ≥ 1`, the coordinator's partitioning loop emits exactly
`num_procs` slices; the indices they cover, in slice order, are exactly
`0, 1, ..., num_items - 1` (hence the slices are contiguous, non-overlapping
and gap-free and their union is exactly that index set); the slice sizes sum
to `num_items`; and no slice size is negative. -/
theorem partition_complete (n p : Int) (hn : 0 ≤ n) (hp : 1 ≤ p) :
    (slices n p).length = p.toNat ∧
      coveredIndices (slices n p) = (List.range n.toNat).map (fun j : Nat => (j : Int)) ∧
      ((slices n p).map Prod.snd).sum = n ∧
      ∀ s ∈ slices n p, 0 ≤ s.2 := by
  have hN := cCeil_nonneg n p hn hp
  have hcov := slices_precond n p hn hp
  refine ⟨partitionLoop_length _ _ _ _, ?_, ?_, ?_⟩
  · have h := partitionLoop_covered p.toNat n 0 (cCeil n p) le_rfl hn hN hcov
    unfold slices
    rw [h]
    simp
  · have h := partitionLoop_sum p.toNat n 0 (cCeil n p) le_rfl hn hN hcov
    unfold slices
    rw [h]
    ring
  · intro s hs
    exact (partitionLoop_mem_bounds p.toNat n 0 (cCeil n p) le_rfl hn hN s hs).1

/-- Witness for C1, evaluated at `num_items = 5`, `num_procs = 2`. -/
theorem partition_complete_witness :
    (slices 5 2).length = (2 : Int).toNat ∧
      coveredIndices (slices 5 2) =
        (List.range (5 : Int).toNat).map (fun j : Nat => (j : Int)) ∧
      ((slices 5 2).map Prod.snd).sum = 5 ∧
      ∀ s ∈ slices 5 2, 0 ≤ s.2 :=
  partition_complete 5 2 (by norm_num) (by norm_num)

/-- Claim C2 counterexample: for `num_items = 1`, `num_procs = 3` the loop
emits sizes `1, 0, 0`, so TWO slices (not at most one) are strictly smaller
than `ceil(1 / 3) = 1`, refuting the claim as stated. -/
theorem partition_fairness_counterexample :
    ¬ (((slices 1 3).map Prod.snd).filter
        (fun x => decide (x < cCeil 1 3))).length ≤ 1 := by
  decide

/-- Claim C2 amended: no slice size exceeds `ceil(num_items / num_procs)`;
at most one slice has a size strictly between 0 and that base size (several
trailing slices of size 0 can occur once the testing set is exhausted); and
for `num_items = 5`, `num_procs = 2` the slices are exactly `(0,3), (3,2)`,
of sizes 3 and 2 in that worker order. -/
theorem partition_fairness_amended (n p : Int) (hn : 0 ≤ n) (hp : 1 ≤ p) :
    (∀ s ∈ slices n p, s.2 ≤ cCeil n p) ∧
      (((slices n p).map Prod.snd).filter
          (fun x => decide (0 < x ∧ x < cCeil n p))).length ≤ 1 ∧
      slices 5 2 = [(0, 3), (3, 2)] := by
  have hN := cCeil_nonneg n p hn hp
  refine ⟨?_, ?_, by decide⟩
  · intro s hs
    exact (partitionLoop_mem_bounds p.toNat n 0 (cCeil n p) le_rfl hn hN s hs).2.1
  · obtain ⟨a, b, mid, heq, hmid⟩ :=
      partitionLoop_shape p.toNat n 0 (cCeil n p) le_rfl hn hN
    unfold slices
    rw [heq]
    have hqN : decide (0 < cCeil n p ∧ cCeil n p < cCeil n p) = false := by
      simp only [decide_eq_false_iff_not]
      omega
    have hq0 : decide ((0 : Int) < 0 ∧ (0 : Int) < cCeil n p) = false := by
      simp only [decide_eq_false_iff_not]
      omega
    rw [List.filter_append, List.filter_append,
      filter_replicate_false _ _ hqN, filter_replicate_false _ _ hq0]
    rcases hmid with h | ⟨r, hr, _, _⟩
    · subst h; simp
    · subst hr
      have := length_filter_single_le (fun x => decide (0 < x ∧ x < cCeil n p)) r
      simp only [List.append_nil, List.nil_append, List.length_append]
      omega

/-- Witness for the amended C2, evaluated at `num_items = 1`,
`num_procs = 3` (where several zero-size slices occur). -/
theorem partition_fairness_amended_witness :
    (∀ s ∈ slices 1 3, s.2 ≤ cCeil 1 3) ∧
      (((slices 1 3).map Prod.snd).filter
          (fun x => decide (0 < x ∧ x < cCeil 1 3))).length ≤ 1 ∧
      slices 5 2 = [(0, 3), (3, 2)] :=
  partition_fairness_amended 1 3 (by norm_num) (by norm_num)

/-- Claim C3 (code bug): a child terminating without writing its result is
NOT detected.  At end of file `read` returns 0, which passes the `< 0`
check of line 216 and leaves `num_correct` holding its previous (stale or
uninitialized) value, which is then folded into the total: with a first
child reporting 7 and a second child that wrote nothing, the run completes
successfully and prints 14.  In general the collection loop never reports
an error, no matter how many children failed to write. -/
theorem collect_missing_result :
    collectLoop [some 7, none] 0 0 = some 14 ∧
      ∀ (chans : List (Option Int)) (g t : Int),
        (collectLoop chans g t).isSome = true :=
  ⟨rfl, collectLoop_isSome⟩

/-- Claim C4 counterexample: the empty metric string (a prefix of both
names, hence ambiguous, which the claim says must be a fatal configuration
error) is accepted and selects the euclidean metric, because
`strncmp(dist_metric, "euclidean", 0) == 0` always holds. -/
theorem metric_empty_counterexample :
    selectMetric [] = some DistMetric.euclidean ∧ selectMetric [] ≠ none := by
  refine ⟨rfl, ?_⟩
  intro h
  exact Option.noConfusion ((rfl : selectMetric [] = some DistMetric.euclidean) ▸ h)

/-- Claim C4 amended: any prefix of "euclidean" — including the empty
string — selects the euclidean metric; a string that is not a prefix of
"euclidean" but is a prefix of "cosine" selects the cosine metric; any
other string is a fatal configuration error, detected before any dataset is
loaded (the outcome is `badMetric` for every possible loader oracle, which
is therefore never consulted) and before any worker is spawned. -/
theorem metric_prefix_selection (dm : List Char) (K np : Int) (v : Bool)
    (ps : List (List Char)) (load : Option (List Char) → Option Int) :
    (dm <+: euclideanChars → selectMetric dm = some DistMetric.euclidean) ∧
      (¬ dm <+: euclideanChars → dm <+: cosineChars →
        selectMetric dm = some DistMetric.cosine) ∧
      (¬ dm <+: euclideanChars → ¬ dm <+: cosineChars →
        selectMetric dm = none ∧ (ps.length ≠ 0 →
          mainBeforeFork ⟨K, dm, np, v⟩ ps load = Except.error MainError.badMetric)) := by
  refine ⟨?_, ?_, ?_⟩
  · intro h
    have hb : dm.isPrefixOf euclideanChars = true := List.isPrefixOf_iff_prefix.mpr h
    simp [selectMetric, hb]
  · intro h1 h2
    have hb1 : dm.isPrefixOf euclideanChars = false := by
      cases hbe : dm.isPrefixOf euclideanChars
      · rfl
      · exact absurd (List.isPrefixOf_iff_prefix.mp hbe) h1
    have hb2 : dm.isPrefixOf cosineChars = true := List.isPrefixOf_iff_prefix.mpr h2
    simp [selectMetric, hb1, hb2]
  · intro h1 h2
    have hb1 : dm.isPrefixOf euclideanChars = false := by
      cases hbe : dm.isPrefixOf euclideanChars
      · rfl
      · exact absurd (List.isPrefixOf_iff_prefix.mp hbe) h1
    have hb2 : dm.isPrefixOf cosineChars = false := by
      cases hbe : dm.isPrefixOf cosineChars
      · rfl
      · exact absurd (List.isPrefixOf_iff_prefix.mp hbe) h2
    have hsel : selectMetric dm = none := by
      simp [selectMetric, hb1, hb2]
    refine ⟨hsel, ?_⟩
    intro hps
    simp [mainBeforeFork, hps, hsel]

/-- Witness for the amended C4: the unmatched string "xyz" is rejected
before any load, whatever the loader would have returned. -/
theorem metric_prefix_selection_witness :
    selectMetric ("xyz".toList) = none ∧
      mainBeforeFork ⟨1, "xyz".toList, 1, false⟩ [['x']] (fun _ => some 3) =
        Except.error MainError.badMetric := by
  have h := (metric_prefix_selection ("xyz".toList) 1 1 false [['x']]
    (fun _ => some 3)).2.2 (by decide) (by decide)
  exact ⟨h.1, h.2 (by decide)⟩

/-- Claim C5 (code bug): without `-v` standard output carries exactly the
one integer line, but with `-v` the three diagnostic `printf` calls of
lines 132, 202 and 229 also land on standard output, so it does not carry
exactly one integer and diagnostics do appear on the primary stream. -/
theorem stdout_verbose_eval (t : Int) :
    mainStdout false t = [toString t ++ "\n"] ∧
      mainStdout true t =
        ["- Creating children ...\n", "- Waiting for children...\n",
          "Number of correct predictions: " ++ toString t ++ "\n",
          toString t ++ "\n"] ∧
      mainStdout true t ≠ [toString t ++ "\n"] := by
  refine ⟨rfl, rfl, ?_⟩
  intro h
  have h2 := congrArg List.length h
  simp [mainStdout] at h2

/-- Claim C6: on a successful run (every child wrote its result) the printed
total equals the sum of the per-child correct counts, whatever garbage the
uninitialized buffer held, and the value is invariant under permuting the
collected results; the loop consumes the entire result list before the
total exists, matching the wait-for-all barrier of lines 205-226. -/
theorem coordinator_aggregation (results results2 : List Int) (g g2 : Int)
    (hperm : results.Perm results2) :
    collectLoop (results.map some) g 0 = some results.sum ∧
      collectLoop (results.map some) g 0 = collectLoop (results2.map some) g2 0 := by
  constructor
  · rw [collectLoop_map_some, zero_add]
  · rw [collectLoop_map_some, collectLoop_map_some, hperm.sum_eq]

/-- Witness for C6 with results 1, 2 collected in both orders and different
garbage in the buffer. -/
theorem coordinator_aggregation_witness :
    collectLoop (([1, 2] : List Int).map some) 0 0 = some ([1, 2] : List Int).sum ∧
      collectLoop (([1, 2] : List Int).map some) 0 0 =
        collectLoop (([2, 1] : List Int).map some) 5 0 :=
  coordinator_aggregation [1, 2] [2, 1] 0 5 (by decide)

/-- Claim C7: a `K` exceeding the training-set size is rejected.  The
coordinator itself performs no validation — any `-K` argument string flows
through `atoi` into the configuration without error — so the rejection is
the engine's, modelled from the spec by `engineRejectsK`. -/
theorem k_exceeds_training_rejected (K n_train : Int) (s : List Char)
    (h : n_train < K) :
    engineRejectsK K n_train = true ∧ (parseOpts [OptTok.optK s]).isSome = true := by
  constructor
  · simp [engineRejectsK, h]
  · rfl

/-- Witness for C7 at `K = 5` against a training set of 3 items. -/
theorem k_exceeds_training_rejected_witness :
    engineRejectsK 5 3 = true ∧
      (parseOpts [OptTok.optK ("5".toList)]).isSome = true :=
  k_exceeds_training_rejected 5 3 ("5".toList) (by norm_num)

/-- Claim C8 (code bug): a command line with exactly one positional file
argument passes the `optind >= argc` check of line 80 (which only demands
at least one), so `argv[optind+1]` — the terminating `NULL` of `argv` — is
handed to `load_dataset` instead of the run stopping with a usage error:
with a loader that fails on the NULL path the run dies only at the
testing-set load; with a loader oblivious to it the run proceeds fully. -/
theorem one_positional_eval :
    mainBeforeFork defaultOpts [['t']]
        (fun p => match p with | none => none | some _ => some 3) =
      Except.error MainError.testLoadFail ∧
      mainBeforeFork defaultOpts [['t']] (fun _ => some 3) =
        Except.ok (DistMetric.euclidean, 3, 3) :=
  ⟨rfl, rfl⟩

/-- Claim C9: a non-numeric `-K` or `-p` argument is not a configuration
error: `atoi` yields 0 and the getopt loop stores it silently, so parsing
succeeds with `K = 0` resp. `num_procs = 0` and execution proceeds. -/
theorem nonnumeric_option_silently_zero (s : List Char)
    (h : startsNumeric s = false) :
    cAtoi s = 0 ∧
      parseOpts [OptTok.optP s] = some ⟨1, "euclidean".toList, 0, false⟩ ∧
      parseOpts [OptTok.optK s] = some ⟨0, "euclidean".toList, 1, false⟩ := by
  have h0 : cAtoi s = 0 := by
    unfold cAtoi
    unfold startsNumeric at h
    cases hds : s.dropWhile isSpaceC with
    | nil => rfl
    | cons c rest =>
      rw [hds] at h
      have h4 : (c.isDigit || decide (c = '+') || decide (c = '-')) = false := h
      simp only [Bool.or_eq_false_iff, decide_eq_false_iff_not] at h4
      obtain ⟨⟨h1, h2⟩, h3⟩ := h4
      show (if c = '-' then - digitsVal rest 0
        else if c = '+' then digitsVal rest 0 else digitsVal (c :: rest) 0) = 0
      rw [if_neg h3, if_neg h2]
      simp [digitsVal, h1]
  refine ⟨h0, ?_, ?_⟩
  · simp [parseOpts, parseOptsLoop, applyOpt, defaultOpts, h0]
  · simp [parseOpts, parseOptsLoop, applyOpt, defaultOpts, h0]

/-- Witness for C9 at the argument "abc". -/
theorem nonnumeric_option_silently_zero_witness :
    cAtoi ("abc".toList) = 0 ∧
      parseOpts [OptTok.optP ("abc".toList)] =
        some ⟨1, "euclidean".toList, 0, false⟩ ∧
      parseOpts [OptTok.optK ("abc".toList)] =
        some ⟨0, "euclidean".toList, 1, false⟩ :=
  nonnumeric_option_silently_zero ("abc".toList) (by decide)

/-- Claim C10: slice sizes never increase in worker order, and after any
zero-size slice every later assignment is `(num_items, 0)` — start index
pinned at the testing-set size, size zero. -/
theorem partition_monotone (n p : Int) (hn : 0 ≤ n) (hp : 1 ≤ p) :
    List.Pairwise (fun a b : Int × Int => b.2 ≤ a.2) (slices n p) ∧
      List.Pairwise (fun a b : Int × Int => a.2 = 0 → b.1 = n ∧ b.2 = 0)
        (slices n p) := by
  have hN := cCeil_nonneg n p hn hp
  have hinv : 0 < cCeil n p ∨ (0 : Int) = n := by
    rcases eq_or_lt_of_le hn with h | h
    · exact Or.inr h
    · left
      have := cCeil_pos n p h hp
      omega
  have h := partitionLoop_pairwise p.toNat n 0 (cCeil n p) le_rfl hn hN hinv
  exact ⟨List.Pairwise.imp (fun hab => hab.1) h,
    List.Pairwise.imp (fun hab => hab.2) h⟩

/-- Witness for C10 at `num_items = 1`, `num_procs = 3`, where zero-size
trailing slices occur. -/
theorem partition_monotone_witness :
    List.Pairwise (fun a b : Int × Int => b.2 ≤ a.2) (slices 1 3) ∧
      List.Pairwise (fun a b : Int × Int => a.2 = 0 → b.1 = (1 : Int) ∧ b.2 = 0)
        (slices 1 3) :=
  partition_monotone 1 3 (by norm_num) (by norm_num)

end Classifier
